import Mathlib

set_option autoImplicit false

namespace PaperDF

/-!
Shallow embedding of the rename decision engine of `pdf_metadata_renamer.py`
(PaperDF): author-name parsing, author rendering, metadata-year normalization,
filename building and sanitization, content comparison, collision resolution,
and the "already formatted" validator-response handling.

Strings are modelled through their character lists; the Python string
primitives used by the source (`str.strip`, `str.split`, `str.replace`,
`str.lower`, `str.title`, and the handful of `re.sub` patterns appearing in
`_render_author`) are given executable ASCII models below.  Every definition
follows the corresponding Python function; deviations forced by the model
(external SHA-1, external services) are recorded in doc comments.
-/

/-- ASCII whitespace: the character set matched by Python's default
`str.split`/`str.strip` and by the regex class `\s` on ASCII text. -/
def isWs (c : Char) : Bool :=
  c = ' ' || c = '\t' || c = '\n' || c = '\r' || c = '\x0b' || c = '\x0c'

/-- ASCII model of Python `str.lower` on a single character. -/
def lowerChar (c : Char) : Char :=
  if 'A' ≤ c ∧ c ≤ 'Z' then Char.ofNat (c.toNat + 32) else c

/-- ASCII model of Python `str.upper` on a single character. -/
def upperChar (c : Char) : Char :=
  if 'a' ≤ c ∧ c ≤ 'z' then Char.ofNat (c.toNat - 32) else c

/-- ASCII cased character (the letters relevant to Python `str.title`). -/
def isAsciiAlpha (c : Char) : Bool :=
  ('a' ≤ c ∧ c ≤ 'z') || ('A' ≤ c ∧ c ≤ 'Z')

/-- Strip characters satisfying `p` from both ends of a list
(Python `str.strip` with an explicit character set). -/
def stripWith (p : Char → Bool) (l : List Char) : List Char :=
  ((l.dropWhile p).reverse.dropWhile p).reverse

/-- Python `str.strip()` on the character list of a string. -/
def pyStripL (l : List Char) : List Char := stripWith isWs l

/-- Python `str.strip()`. -/
def pyStrip (s : String) : String := ⟨pyStripL s.data⟩

/-- Python `str.lower()` (ASCII model). -/
def pyLower (s : String) : String := ⟨s.data.map lowerChar⟩

/-- Worker for `pySplit`: `acc` is the current in-progress word, reversed. -/
def pySplitGo : List Char → List Char → List (List Char)
  | acc, [] => if acc.isEmpty then [] else [acc.reverse]
  | acc, c :: t =>
    if isWs c then
      if acc.isEmpty then pySplitGo [] t else acc.reverse :: pySplitGo [] t
    else
      pySplitGo (c :: acc) t

/-- Python `str.split()` without arguments: split on runs of whitespace,
discarding empty words. -/
def pySplit (l : List Char) : List (List Char) := pySplitGo [] l

/-- Python `str.split()` at the `String` level. -/
def pySplitStr (s : String) : List String := (pySplit s.data).map (⟨·⟩)

/-- Python `' '.join` on strings. -/
def spaceJoinS : List String → String
  | [] => ""
  | [s] => s
  | s :: rest => s ++ " " ++ spaceJoinS rest

/-- Python `', '.join` on strings. -/
def commaSpaceJoinS : List String → String
  | [] => ""
  | [s] => s
  | s :: rest => s ++ ", " ++ commaSpaceJoinS rest

/-- Python `str.title()` (ASCII model): a cased character is uppercased when
the previous character is not cased, and lowercased otherwise.  This is the
source's fallback definition of `titlecase` (the external `titlecase` package
is an optional dependency; the in-repo fallback is `str.title`). -/
def pyTitleGo : Bool → List Char → List Char
  | _, [] => []
  | prevCased, c :: t =>
    if isAsciiAlpha c then
      (if prevCased then lowerChar c else upperChar c) :: pyTitleGo true t
    else
      c :: pyTitleGo false t

/-- Source `titlecase` (fallback branch): Python `str.title`. -/
def titlecase (s : String) : String := ⟨pyTitleGo false s.data⟩

/-- Worker for `replaceAllL`, with fuel bounded by the length of the text so
that the recursion is structural; `replaceAllL` always supplies enough fuel. -/
def replGo (pat repl : List Char) : Nat → List Char → List Char
  | 0, rest => rest
  | _ + 1, [] => []
  | fuel + 1, c :: t =>
    if pat.isPrefixOf (c :: t) then
      repl ++ replGo pat repl fuel ((c :: t).drop pat.length)
    else
      c :: replGo pat repl fuel t

/-- Python `str.replace(pat, repl)`: replace every occurrence, scanning left
to right without overlap.  (The source never calls it with an empty pattern;
for an empty pattern this model returns the text unchanged.) -/
def replaceAllL (l pat repl : List Char) : List Char :=
  if pat.isEmpty then l else replGo pat repl l.length l

/-- Python `str.replace` at the `String` level. -/
def pyReplace (s pat repl : String) : String := ⟨replaceAllL s.data pat.data repl.data⟩

/-- Worker for `subWsRun`: `re.sub(r'\s+', ' ', ...)`.  The flag records
whether we are inside a whitespace run whose single `' '` replacement has
already been emitted. -/
def subWsRunGo : Bool → List Char → List Char
  | _, [] => []
  | inRun, c :: t =>
    if isWs c then
      if inRun then subWsRunGo true t else ' ' :: subWsRunGo true t
    else
      c :: subWsRunGo false t

/-- `re.sub(r'\s+', ' ', l)`: each maximal whitespace run becomes one space. -/
def subWsRun (l : List Char) : List Char := subWsRunGo false l

/-- Worker for `subWsBefore`: buffered whitespace run (reversed).  A maximal
whitespace run immediately followed by `mark` is deleted (the regex
`\s+<mark>` is replaced by `<mark>`); any other run is emitted unchanged. -/
def subWsBeforeGo (mark : Char) : List Char → List Char → List Char
  | buf, [] => buf.reverse
  | buf, c :: t =>
    if isWs c then subWsBeforeGo mark (c :: buf) t
    else if c = mark then c :: subWsBeforeGo mark [] t
    else buf.reverse ++ c :: subWsBeforeGo mark [] t

/-- `re.sub(r'\s+,', ',', l)` (for `mark = ','`) and `re.sub(r'\s+\.', '.', l)`
(for `mark = '.'`): drop whitespace immediately preceding the mark. -/
def subWsBefore (mark : Char) (l : List Char) : List Char := subWsBeforeGo mark [] l

/-- Worker for `subCommaComma`: `re.sub(r',\s*,', ',', ...)` with `re.sub`'s
left-to-right, resume-after-replacement scan.  `absorb` is true when the last
emitted comma can still absorb a following `\s*,`; `buf` holds the whitespace
(reversed) seen since that comma. -/
def subCommaCommaGo : Bool → List Char → List Char → List Char
  | _, buf, [] => buf.reverse
  | absorb, buf, c :: t =>
    if c = ',' then
      if absorb then subCommaCommaGo false [] t
      else ',' :: subCommaCommaGo true [] t
    else if isWs c then
      if absorb then subCommaCommaGo true (c :: buf) t
      else c :: subCommaCommaGo false [] t
    else
      buf.reverse ++ c :: subCommaCommaGo false [] t

/-- `re.sub(r',\s*,', ',', l)`. -/
def subCommaComma (l : List Char) : List Char := subCommaCommaGo false [] l

/-- Worker for `subEmptyParens`: `re.sub(r'\(\s*\)', '', ...)`.  `pending` is
`some buf` when an opening parenthesis (plus following whitespace, reversed in
`buf`) is still waiting for a closing parenthesis. -/
def subEmptyParensGo : Option (List Char) → List Char → List Char
  | none, [] => []
  | some buf, [] => buf.reverse
  | none, c :: t =>
    if c = '(' then subEmptyParensGo (some [c]) t else c :: subEmptyParensGo none t
  | some buf, c :: t =>
    if c = ')' then subEmptyParensGo none t
    else if isWs c then subEmptyParensGo (some (c :: buf)) t
    else if c = '(' then buf.reverse ++ subEmptyParensGo (some [c]) t
    else buf.reverse ++ c :: subEmptyParensGo none t

/-- `re.sub(r'\(\s*\)', '', l)`. -/
def subEmptyParens (l : List Char) : List Char := subEmptyParensGo none l

/-- Membership test for Python `str.strip(' ,')`. -/
def isSpaceOrComma (c : Char) : Bool := c = ' ' || c = ','

/-- Line 548 of `_render_author`: `re.sub(r'\s+', ' ', out).strip()` —
collapse whitespace runs to single spaces, then trim. -/
def wsNormalize (s : String) : String := ⟨pyStripL (subWsRun s.data)⟩

/-- The whitespace/punctuation cleanup performed at the end of
`_render_author` (source lines 548-551), in source order:
`re.sub(r'\s+', ' ', out).strip()`; `re.sub(r'\s+,', ',', out)`;
`re.sub(r',\s*,', ',', out)`; `re.sub(r'\(\s*\)', '', out)`;
`re.sub(r'\s+\.', '.', out)`; `out.strip(' ,')`. -/
def cleanupSpacing (s : String) : String :=
  ⟨stripWith isSpaceOrComma
    (subWsBefore '.'
      (subEmptyParens
        (subCommaComma
          (subWsBefore ','
            ((wsNormalize s).data)))))⟩

/-!  Author parsing and rendering (`_SUFFIXES`, `_parse_author`, `_initial`,
`_middle_initials`, `_render_author`, `format_authors_list`). -/

/-- Source constant `_SUFFIXES` (line 505). -/
def _SUFFIXES : List String := ["jr", "jr.", "sr.", "ii", "iii", "iv"]

/-- Parsed author-name components (the dict returned by `_parse_author`). -/
structure AuthorComponents where
  first : String
  middle : String
  surname : String
  suffix : String
deriving DecidableEq

/-- Tokenization of `_parse_author` before the suffix check (lines 507-511):
replace `;`/`,` with spaces, strip, split on whitespace.  (The guard `if not
full` of line 508 also yields no tokens here.) -/
def preSuffixTokens (full : String) : List String :=
  if full = "" then []
  else pySplitStr ⟨pyStripL (full.data.map (fun c => if c = ';' ∨ c = ',' then ' ' else c))⟩

/-- Suffix stripping of `_parse_author` (lines 512-514): if the last token is
(case-insensitively) in `_SUFFIXES`, pop it as the suffix.  Returns the
remaining tokens together with the suffix. -/
def authorSplit (full : String) : List String × String :=
  let parts := preSuffixTokens full
  match parts.getLast? with
  | some lastTok =>
    if _SUFFIXES.contains (pyLower lastTok) then (parts.dropLast, lastTok)
    else (parts, "")
  | none => ([], "")

/-- Component assembly of `_parse_author` (lines 515-523): no tokens → all
empty (suffix preserved); one token → it is the surname; two or more → first
token, inner tokens space-joined as middle, last token as surname. -/
def componentsFrom : List String × String → AuthorComponents
  | ([], suffix) => ⟨"", "", "", suffix⟩
  | ([only], suffix) => ⟨"", "", only, suffix⟩
  | (p0 :: p1 :: rest, suffix) =>
    ⟨p0, spaceJoinS ((p1 :: rest).dropLast), ((p1 :: rest).getLast?).getD "", suffix⟩

/-- Source `_parse_author` (lines 507-523). -/
def _parse_author (full : String) : AuthorComponents :=
  componentsFrom (authorSplit full)

/-- Source `_initial` (line 525-526): `s[0].upper()` or empty. -/
def _initial (s : String) : String :=
  match s.data with
  | [] => ""
  | c :: _ => ⟨[upperChar c]⟩

/-- Source `_middle_initials` (lines 528-531). -/
def _middle_initials (m : String) : String :=
  if m = "" then ""
  else spaceJoinS ((pySplitStr m).map (fun t => _initial t ++ "."))

/-- Source `_render_author` (lines 533-552): sequential literal token
replacement in the source's dict order, the spacing cleanup, and title-casing
of a non-empty result. -/
def _render_author (fmt : String) (comps : AuthorComponents) : String :=
  let out := fmt
  let out := pyReplace out "{first}" comps.first
  let out := pyReplace out "{middle}" comps.middle
  let out := pyReplace out "{surname}" comps.surname
  let out := pyReplace out "{last}" comps.surname
  let out := pyReplace out "{family}" comps.surname
  let out := pyReplace out "{suffix}" comps.suffix
  let out := pyReplace out "{first_initial}" (_initial comps.first)
  let out := pyReplace out "{surname_initial}" (_initial comps.surname)
  let out := pyReplace out "{middle_initials}" (_middle_initials comps.middle)
  let out := cleanupSpacing out
  if out = "" then "" else titlecase out

/-- The `rendered` list built by the loop of `format_authors_list` (lines
558-563): each author parsed and rendered, empty renders dropped, input order
kept. -/
def renderedAuthors (fmt : String) (authors_list : List String) : List String :=
  (authors_list.map (fun full => _render_author fmt (_parse_author full))).filter
    (fun s => s ≠ "")

/-- Source `format_authors_list` (lines 554-564).  The source reads the
active author template from the module globals `AUTHOR_FMT_PAPER` /
`AUTHOR_FMT_BOOK` (configuration); they are explicit parameters here. -/
def format_authors_list (fmt_paper fmt_book : String) (authors_list : List String)
    (is_book : Bool) : String :=
  if authors_list.isEmpty then "UnknownAuthors"
  else if (renderedAuthors (if is_book then fmt_book else fmt_paper) authors_list).isEmpty then
    "UnknownAuthors"
  else commaSpaceJoinS (renderedAuthors (if is_book then fmt_book else fmt_paper) authors_list)

/-- Source constant `DEFAULT_OUTPUT_PATTERN` (line 103). -/
def DEFAULT_OUTPUT_PATTERN : String := "{journal} - {year} - {authors} - {title}.pdf"

/-- Source constant `DEFAULT_BOOK_OUTPUT_PATTERN` (line 105). -/
def DEFAULT_BOOK_OUTPUT_PATTERN : String := "{authors} - {title} - {journal} ({year}).pdf"

/-- Source constant `DEFAULT_AUTHOR_FMT_PAPER` (line 111). -/
def DEFAULT_AUTHOR_FMT_PAPER : String := "{surname}"

/-- Source constant `DEFAULT_AUTHOR_FMT_BOOK` (line 112). -/
def DEFAULT_AUTHOR_FMT_BOOK : String := "{surname}, {first_initial}."

/-! Metadata normalization: the year field (source lines 467-468) and the
associated configuration constants (lines 106 and 129). -/

/-- Source constant `DEFAULT_UNPUBLISHED` (line 106). -/
def DEFAULT_UNPUBLISHED : String := "Unpublished"

/-- Source global `UNPUBLISHED_PLACEHOLDER` (line 129):
`settings.get('unpublished', DEFAULT_UNPUBLISHED)`, i.e. the configured
unpublished placeholder; with no configuration entry it is
`DEFAULT_UNPUBLISHED`. -/
def UNPUBLISHED_PLACEHOLDER : String := DEFAULT_UNPUBLISHED

/-- The unknown-year sentinel set of `get_metadata_from_snippet` (line 468). -/
def YEAR_UNKNOWN_SENTINELS : List String := ["unknown", "unknownyear", "n/a", "na"]

/-- Year normalization inside `get_metadata_from_snippet` (lines 467-468):
`'n.d.' if (raw_year is None or str(raw_year).strip() == '' or
str(raw_year).strip().lower() in {'unknown','unknownyear','n/a','na'})
else str(raw_year).strip()`.  `none` models a missing/`None` field; `some y`
models `str(raw_year)`. -/
def normalize_year (raw : Option String) : String :=
  match raw with
  | none => "n.d."
  | some y =>
    if pyStrip y = "" || YEAR_UNKNOWN_SENTINELS.contains (pyLower (pyStrip y)) then "n.d."
    else pyStrip y

/-- The claim-side predicate "the year field is absent, blank, or
case-insensitively one of the unknown sentinels" — exactly the condition of
line 468. -/
def yearIsUnknown (raw : Option String) : Bool :=
  match raw with
  | none => true
  | some y =>
    pyStrip y = "" || YEAR_UNKNOWN_SENTINELS.contains (pyLower (pyStrip y))

/-- Modelled from the spec: the spec's wording of year normalization, which
replaces an absent/blank/sentinel year by the *configured*
unpublished/unknown placeholder string instead of a fixed literal.  Written
only to compare the claim's wording against `normalize_year`. -/
def normalize_year_spec (placeholder : String) (raw : Option String) : String :=
  match raw with
  | none => placeholder
  | some y =>
    if pyStrip y = "" || YEAR_UNKNOWN_SENTINELS.contains (pyLower (pyStrip y)) then placeholder
    else pyStrip y

/-! Filename building (`build_new_filename`, lines 569-580). -/

/-- Source constant `INVALID_FILENAME_CHARS` (line 102). -/
def INVALID_FILENAME_CHARS : List Char :=
  ['<', '>', ':', '"', '/', '\\', '|', '?', '*']

/-- Normalized document metadata (the dict returned by
`get_metadata_from_snippet`; all four keys are always present). -/
structure DocMetadata where
  authors : List String
  year : String
  journal : String
  title : String

/-- Worker for `formatPattern` with fuel bounded by the text length.
Single-pass replacement of the four placeholders, so substituted values are
never rescanned — matching `str.format`'s behaviour on these templates.
(`str.format` raises on stray brace syntax; this total model copies such text
unchanged, which only enlarges the set of strings the sanitization theorems
cover.) -/
def formatGo (j y a t : List Char) : Nat → List Char → List Char
  | 0, rest => rest
  | _ + 1, [] => []
  | fuel + 1, c :: cs =>
    if "{journal}".data.isPrefixOf (c :: cs) then
      j ++ formatGo j y a t fuel ((c :: cs).drop "{journal}".data.length)
    else if "{year}".data.isPrefixOf (c :: cs) then
      y ++ formatGo j y a t fuel ((c :: cs).drop "{year}".data.length)
    else if "{authors}".data.isPrefixOf (c :: cs) then
      a ++ formatGo j y a t fuel ((c :: cs).drop "{authors}".data.length)
    else if "{title}".data.isPrefixOf (c :: cs) then
      t ++ formatGo j y a t fuel ((c :: cs).drop "{title}".data.length)
    else
      c :: formatGo j y a t fuel cs

/-- `pattern.format(journal=..., year=..., authors=..., title=...)` of
`build_new_filename`. -/
def formatPattern (pattern journal year authors title : String) : String :=
  ⟨formatGo journal.data year.data authors.data title.data pattern.data.length pattern.data⟩

/-- `' '.join` on words given as character lists. -/
def spaceJoinWords : List (List Char) → List Char
  | [] => []
  | [w] => w
  | w :: ws => w ++ ' ' :: spaceJoinWords ws

/-- Source `build_new_filename` (lines 569-580).  The module globals
`OUTPUT_PATTERN`, `BOOK_OUTPUT_PATTERN`, `UNPUBLISHED_PLACEHOLDER`,
`AUTHOR_FMT_PAPER`, `AUTHOR_FMT_BOOK` (configuration) are explicit
parameters.  The final line of the source is
`' '.join(cleaned.split()).strip()` after stripping the characters of
`INVALID_FILENAME_CHARS`. -/
def build_new_filename (output_pattern book_output_pattern unpublished fmt_paper fmt_book :
    String) (meta : DocMetadata) (is_book : Bool) : String :=
  let journal := if meta.journal = "" then unpublished else meta.journal
  let authors_str := format_authors_list fmt_paper fmt_book meta.authors is_book
  let pattern := if is_book then book_output_pattern else output_pattern
  let filename := formatPattern pattern journal meta.year authors_str meta.title
  let cleaned := filename.data.filter (fun c => !(INVALID_FILENAME_CHARS.contains c))
  ⟨pyStripL (spaceJoinWords (pySplit cleaned))⟩

/-- No two adjacent whitespace characters: holding along a string, it states
the absence of any run of two or more whitespace characters. -/
def noTwoWs (a b : Char) : Prop := ¬(isWs a = true ∧ isWs b = true)

/-! Content hashing, duplicate detection and collision resolution
(`_sha1_hex`, `_same_file`, and the collision block of `process_list`,
lines 585-598 and 679-699). -/

/-- File contents are byte lists. -/
abbrev Byte := Fin 256

/-- Hexadecimal digit characters. -/
def hexChars : List Char := "0123456789abcdef".data

/-- Hex digit of `n % 16`. -/
def hexDigit (n : Nat) : Char := hexChars.getD (n % 16) '0'

/-- Two-hex-character dump of one byte. -/
def byteHex (b : Byte) : List Char := [hexDigit (b.val / 16), hexDigit (b.val % 16)]

/-- Hex dump of a byte list. -/
def bytesHex : List Byte → List Char
  | [] => []
  | b :: t => byteHex b ++ bytesHex t

/-- Eight-hex-character header encoding a length. -/
def lenHex8 (n : Nat) : List Char :=
  [hexDigit (n / 16 ^ 7), hexDigit (n / 16 ^ 6), hexDigit (n / 16 ^ 5), hexDigit (n / 16 ^ 4),
   hexDigit (n / 16 ^ 3), hexDigit (n / 16 ^ 2), hexDigit (n / 16), hexDigit n]

/-- Modelled from the spec: the source `_sha1_hex` (lines 585-590) streams a
file through `hashlib.sha1` and returns the hex digest, an external
cryptographic primitive.  It is modelled as an injective hex encoding of the
content (an eight-hex-character length header followed by the byte dump),
idealizing the hash as collision-free; every output character is a hex digit,
as for a real digest. -/
def sha1_hex (content : List Byte) : List Char :=
  lenHex8 content.length ++ bytesHex content

/-- `_sha1_hex(path)[:8]`: the 8-hex-character short digest. -/
def shortDigest (content : List Byte) : List Char := (sha1_hex content).take 8

/-- Hex-digit character test. -/
def isHexChar (c : Char) : Bool := hexChars.contains c

/-- The filesystem as the collision code queries it: an existence oracle
(`os.path.exists`) and a read oracle (`open`/`os.path.getsize`; `none` models
a missing file or a read error, which `_same_file` turns into `False`).  The
two oracles are distinct calls in the source and so are modelled as
independent functions. -/
structure FS where
  pathExists : String → Bool
  readFile : String → Option (List Byte)

/-- Source `_same_file` (lines 592-598): `False` if the sizes differ,
otherwise compare SHA-1 digests; any read failure degrades to `False`. -/
def _same_file (fs : FS) (a b : String) : Bool :=
  match fs.readFile a, fs.readFile b with
  | some ca, some cb =>
    decide (ca.length = cb.length) && decide (sha1_hex ca = sha1_hex cb)
  | _, _ => false

/-- `os.path.splitext` on a bare filename (no directory separators): split at
the last dot unless every character before it is a dot. -/
def splitextL (name : List Char) : List Char × List Char :=
  match name.reverse.findIdx? (· = '.') with
  | none => (name, [])
  | some j =>
    let i := name.length - 1 - j
    if (name.take i).all (fun c => c = '.') then (name, [])
    else (name.take i, name.drop i)

/-- `os.path.join(dir_path, name)` (POSIX separator, relative `name`). -/
def pathJoin (dir name : String) : String := ⟨dir.data ++ '/' :: name.data⟩

/-- The first collision candidate `f"{base} [{short}]{ext}"` joined to the
directory (source lines 685-688). -/
def firstCandidate (dir : String) (base short ext : List Char) : String :=
  ⟨dir.data ++ '/' :: (base ++ " [".data ++ short ++ "]".data ++ ext)⟩

/-- The numbered collision candidate `f"{base} [{short}-{counter}]{ext}"`
joined to the directory (source lines 696-697). -/
def counterCandidate (dir : String) (base short ext : List Char) (counter : Nat) : String :=
  ⟨dir.data ++ '/' ::
    (base ++ " [".data ++ short ++ "-".data ++ (Nat.repr counter).data ++ "]".data ++ ext)⟩

/-- Outcome of the collision block for one document.  `Error` models a Python
exception escaping to the per-document handler. -/
inductive CollisionOutcome where
  | NoCollision (dst : String)
  | Duplicate
  | Resolved (dst : String)
  | Error
deriving DecidableEq

/-- Whether `process_list` reaches `os.replace` (lines 700-701) for a given
collision outcome: it renames on `NoCollision` and `Resolved` and skips the
rename otherwise. -/
def renameProceeds : CollisionOutcome → Bool
  | .NoCollision _ => true
  | .Resolved _ => true
  | .Duplicate => false
  | .Error => false

/-- The suffix `while os.path.exists(dst)` loop of `process_list`
(lines 689-699), with explicit fuel: the Python loop is unbounded, and
`none` records that `fuel` iterations did not reach a decision.  Each
iteration stops on a free path (`Resolved`, the code proceeds to rename) or
on a content match (`Duplicate`), and otherwise moves to the next numbered
candidate. -/
def collisionLoop (fs : FS) (src dir : String) (base short ext : List Char) :
    String → Nat → Nat → Option CollisionOutcome
  | _, _, 0 => none
  | dst, counter, fuel + 1 =>
    if fs.pathExists dst = false then some (.Resolved dst)
    else if _same_file fs src dst then some .Duplicate
    else
      collisionLoop fs src dir base short ext
        (counterCandidate dir base short ext counter) (counter + 1) fuel

/-- The collision block of `process_list` (lines 679-699): no collision if
the destination is free; `Duplicate` on a content match; otherwise derive the
short digest of the source (a read failure here raises, surfacing as the
document's error) and run the suffix loop starting from
`f"{base} [{short}]{ext}"` with `counter = 2`. -/
def resolveCollision (fs : FS) (src dir newName : String) (fuel : Nat) :
    Option CollisionOutcome :=
  let dst := pathJoin dir newName
  if fs.pathExists dst = false then some (.NoCollision dst)
  else if _same_file fs src dst then some .Duplicate
  else
    match fs.readFile src with
    | none => some .Error
    | some csrc =>
      let pr := splitextL newName.data
      let short := shortDigest csrc
      collisionLoop fs src dir pr.1 short pr.2 (firstCandidate dir pr.1 short pr.2) 2 fuel

/-- The sequence of destination paths the suffix loop examines: the incoming
`dst` first, then the numbered candidates. -/
def candSeq (dir : String) (base short ext : List Char) (dst : String) (counter : Nat) :
    Nat → String
  | 0 => dst
  | j + 1 => counterCandidate dir base short ext (counter + j)

/-- A destination path stops the suffix loop when it is free or its content
matches the source. -/
def stopsAt (fs : FS) (src p : String) : Bool := !fs.pathExists p || _same_file fs src p

/-- Whether the suffix loop has examined at least one candidate that would
currently stop it.  Formalizes the claim's "caps its iterations at a sane
bound": a cap would mean some fuel bound suffices for every filesystem. -/
def loopCapClaim : Prop :=
  ∃ B : Nat, ∀ (fs : FS) (src dir : String) (base short ext : List Char) (dst : String)
    (counter : Nat), (collisionLoop fs src dir base short ext dst counter B).isSome = true

/-- The pathological filesystem of the claim: `os.path.exists` keeps
reporting `True` for every path while every read fails (so no content ever
matches). -/
def alwaysExistsFS : FS where
  pathExists := fun _ => true
  readFile := fun _ => none

/-- Test fixture: a directory `d` holding `a.pdf` and `b.pdf` with
byte-identical one-byte contents. -/
def fsFixtureDup : FS where
  pathExists := fun p => p == "d/b.pdf"
  readFile := fun p =>
    if p = "d/a.pdf" then some [1] else if p = "d/b.pdf" then some [1] else none

/-- Test fixture: a directory `d` holding `a.pdf` and `b.pdf` with equal-size
but different one-byte contents. -/
def fsFixtureDiff : FS where
  pathExists := fun p => p == "d/b.pdf"
  readFile := fun p =>
    if p = "d/a.pdf" then some [1] else if p = "d/b.pdf" then some [2] else none

/-! Validator-response handling (`filename_already_formatted`, lines
603-643). -/

/-- JSON-like values as `json.loads` produces them. -/
inductive JVal where
  | null
  | bool (b : Bool)
  | str (s : String)
  | num (n : Int)
  | arr (elems : List JVal)
  | obj (fields : List (String × JVal))

/-- Truthy strings accepted for `ok` (line 640). -/
def TRUTHY_STRINGS : List String := ["true", "yes", "y", "1"]

/-- Source `filename_already_formatted` (lines 603-643), applied to the
validator call's result: `Except.error` models any exception in the call or
in `json.loads` (both inside the `try`); otherwise the parsed value is
inspected — a dict with a boolean `ok` returns that boolean, a string `ok`
returns its truthiness, and everything else falls through to `False`. -/
def filename_already_formatted (resp : Except Unit JVal) : Bool :=
  match resp with
  | .error _ => false
  | .ok (.obj fields) =>
    match fields.lookup "ok" with
    | some (.bool b) => b
    | some (.str s) => TRUTHY_STRINGS.contains (pyLower (pyStrip s))
    | _ => false
  | .ok _ => false

/-- Whether a parsed validator response is well-formed: a dict whose `ok`
field is a boolean or a string.  Anything else is a malformed response. -/
def hasUsableOk : JVal → Bool
  | .obj fields =>
    match fields.lookup "ok" with
    | some (.bool _) => true
    | some (.str _) => true
    | _ => false
  | _ => false

/-- Per-document terminal decisions of `process_list`. -/
inductive RenameDecision where
  | alreadyFormatted
  | skipped (reason : String)
  | renamed (src dst : String)
  | duplicateDetected
  | failed
deriving DecidableEq

/-- The `CheckFormatted` step of `process_list` (lines 663-665): when the
validator reports a conforming filename the document terminates with
`alreadyFormatted`; otherwise the pipeline continues with the rest of the
per-document flow (metadata extraction onwards), abstracted as `rest`. -/
def checkFormattedStep (resp : Except Unit JVal) (rest : RenameDecision) : RenameDecision :=
  if filename_already_formatted resp then .alreadyFormatted else rest

/-! ### Supporting lemmas -/

theorem parse_author_eq (full : String) :
    _parse_author full = componentsFrom (authorSplit full) := rfl

theorem componentsFrom_suffix (ps : List String × String) :
    (componentsFrom ps).suffix = ps.2 := by
  rcases ps with ⟨_ | ⟨a, _ | ⟨b, t⟩⟩, s⟩ <;> rfl

theorem hexDigit_inj_fin : ∀ m k : Fin 16, hexDigit m.val = hexDigit k.val → m = k := by
  decide

theorem hexDigit_mem_fin : ∀ m : Fin 16, hexDigit m.val ∈ hexChars := by
  decide

theorem hexDigit_mem (n : Nat) : hexDigit n ∈ hexChars := by
  have h : n % 16 < 16 := Nat.mod_lt _ (by decide)
  have := hexDigit_mem_fin ⟨n % 16, h⟩
  simpa [hexDigit, Nat.mod_mod_of_dvd] using this

theorem byteHex_inj {x y : Byte} (h : byteHex x = byteHex y) : x = y := by
  simp only [byteHex, List.cons.injEq, and_true] at h
  obtain ⟨h1, h2⟩ := h
  have hx := x.isLt
  have hy := y.isLt
  have hd1 : x.val / 16 = y.val / 16 := by
    have := hexDigit_inj_fin ⟨x.val / 16, by omega⟩ ⟨y.val / 16, by omega⟩ h1
    simpa using congrArg Fin.val this
  have hd2 : x.val % 16 = y.val % 16 := by
    have := hexDigit_inj_fin ⟨x.val % 16, by omega⟩ ⟨y.val % 16, by omega⟩ h2
    simpa using congrArg Fin.val this
  apply Fin.ext
  omega

theorem bytesHex_inj : ∀ {a b : List Byte}, a.length = b.length → bytesHex a = bytesHex b →
    a = b
  | [], [], _, _ => rfl
  | [], _ :: _, h, _ => by simp at h
  | _ :: _, [], h, _ => by simp at h
  | a :: s, b :: t, hlen, h => by
    simp only [bytesHex] at h
    obtain ⟨h1, h2⟩ := List.append_inj h rfl
    obtain rfl : a = b := byteHex_inj h1
    obtain rfl : s = t := bytesHex_inj (by simpa using hlen) h2
    rfl

theorem sha1_hex_inj_of_length {a b : List Byte} (hlen : a.length = b.length)
    (h : sha1_hex a = sha1_hex b) : a = b := by
  unfold sha1_hex at h
  rw [hlen] at h
  exact bytesHex_inj hlen (List.append_cancel_left h)

theorem shortDigest_eq_lenHex8 (c : List Byte) : shortDigest c = lenHex8 c.length := rfl

theorem shortDigest_length (c : List Byte) : (shortDigest c).length = 8 := rfl

theorem shortDigest_hex (c : List Byte) : ∀ x ∈ shortDigest c, isHexChar x = true := by
  intro x hx
  rw [shortDigest_eq_lenHex8] at hx
  simp only [lenHex8, List.mem_cons, List.not_mem_nil, or_false] at hx
  have : x ∈ hexChars := by
    rcases hx with h | h | h | h | h | h | h | h <;> (subst h; exact hexDigit_mem _)
  simpa [isHexChar] using this

theorem same_file_of_read_eq {fs : FS} {a b : String} {ca cb : List Byte}
    (ha : fs.readFile a = some ca) (hb : fs.readFile b = some cb) (h : ca = cb) :
    _same_file fs a b = true := by
  subst h
  simp [_same_file, ha, hb]

theorem same_file_false_of_hash_ne {fs : FS} {a b : String} {ca cb : List Byte}
    (ha : fs.readFile a = some ca) (hb : fs.readFile b = some cb)
    (h : sha1_hex ca ≠ sha1_hex cb) : _same_file fs a b = false := by
  simp [_same_file, ha, hb, h]

/-! ### Claims -/

/-- Claim C2, counterexample: the source hard-codes the year placeholder
`'n.d.'` (line 468); the configured unpublished placeholder
(`UNPUBLISHED_PLACEHOLDER`, default `"Unpublished"`) is not what year
normalization uses, contrary to the claim's "configured unpublished/unknown
placeholder string". -/
theorem C2_year_placeholder_cex :
    normalize_year (some "unknown") = "n.d." ∧
    normalize_year_spec UNPUBLISHED_PLACEHOLDER (some "unknown") = "Unpublished" ∧
    normalize_year (some "unknown") ≠
      normalize_year_spec UNPUBLISHED_PLACEHOLDER (some "unknown") := by
  refine ⟨?_, ?_, ?_⟩ <;> decide

/-- Claim C2 (amended): for every raw year value that is absent, blank, or
case-insensitively one of `unknown`, `unknownyear`, `n/a`, `na`,
normalization sets the year to the literal string `"n.d."` (hard-coded in the
source, not the configured unpublished placeholder, whose default is
`"Unpublished"` and which is applied only to the journal field); every other
year value is kept as the trimmed literal string exactly as received. -/
theorem C2_year_normalization (raw : Option String) :
    (yearIsUnknown raw = true → normalize_year raw = "n.d.") ∧
    (∀ y, raw = some y → yearIsUnknown raw = false → normalize_year raw = pyStrip y) := by
  cases raw with
  | none =>
    exact ⟨fun _ => rfl, fun y hy => absurd hy (by simp)⟩
  | some y =>
    constructor
    · intro h
      simp only [yearIsUnknown] at h
      simp only [normalize_year]
      rw [h]
      rfl
    · intro y' hy h
      injection hy with e
      subst e
      simp only [yearIsUnknown] at h
      simp only [normalize_year]
      rw [h]
      rfl

/-- Claim C2 witness: a sentinel year maps to `"n.d."` and a normal year is
kept trimmed. -/
theorem C2_year_normalization_witness :
    normalize_year (some " N/A ") = "n.d." ∧ normalize_year (some " 2019-2020 ") = "2019-2020" := by
  constructor
  · exact (C2_year_normalization (some " N/A ")).1 (by decide)
  · have h := (C2_year_normalization (some " 2019-2020 ")).2 " 2019-2020 " rfl (by decide)
    rw [h]
    decide

/-- Claim C3, counterexample: with the source's default paper author template
`"{surname}"`, `format_authors_list` applied to `["unknown"]` parses and
renders the name like any other and returns `"Unknown"`, not the sentinel
`"UnknownAuthors"` the claim demands for every template (the unknown-author
filtering happens earlier, in `get_metadata_from_snippet`). -/
theorem C3_unknown_author_cex :
    format_authors_list DEFAULT_AUTHOR_FMT_PAPER DEFAULT_AUTHOR_FMT_BOOK ["unknown"] false
        = "Unknown" ∧
    "Unknown" ≠ "UnknownAuthors" := by
  refine ⟨?_, ?_⟩ <;> decide

/-- Claim C3 (amended): for every author template, `format_authors_list` on
the empty author sequence returns the literal sentinel `"UnknownAuthors"`,
and it returns `"UnknownAuthors"` whenever every render is empty; the
single-element sequence `["unknown"]` is not such a case — the word is parsed
as a surname and rendered like any other name (with the source's default
paper template the result is `"Unknown"`). -/
theorem C3_unknown_authors_fallback (fmt_paper fmt_book : String) (authors : List String)
    (is_book : Bool) :
    format_authors_list fmt_paper fmt_book [] is_book = "UnknownAuthors" ∧
    (renderedAuthors (if is_book then fmt_book else fmt_paper) authors = [] →
      format_authors_list fmt_paper fmt_book authors is_book = "UnknownAuthors") := by
  constructor
  · rfl
  · intro h
    unfold format_authors_list
    cases authors with
    | nil => rfl
    | cons a t => simp [h]

/-- Claim C3 witness: an author list whose single entry renders to nothing
(here a bare separator, which parses to all-empty components under a template
with only the suffix token) falls back to `"UnknownAuthors"`. -/
theorem C3_unknown_authors_fallback_witness :
    format_authors_list "{suffix}" "x" [";"] false = "UnknownAuthors" :=
  (C3_unknown_authors_fallback "{suffix}" "x" [";"] false).2 (by decide)

/-- Claim C4: after replacing `;`/`,` with spaces, splitting on whitespace
and stripping a trailing suffix token, a name with at least two remaining
tokens parses with `first` the first token, `surname` the last token and
`middle` the strictly-between tokens joined by single spaces; with exactly
one remaining token that token is the surname and `first`/`middle` are
empty. -/
theorem C4_parse_token_positions (full : String) :
    (2 ≤ (authorSplit full).1.length →
      (_parse_author full).first = (authorSplit full).1.head?.getD "" ∧
      (_parse_author full).surname = (authorSplit full).1.getLast?.getD "" ∧
      (_parse_author full).middle = spaceJoinS (((authorSplit full).1.drop 1).dropLast)) ∧
    ((authorSplit full).1.length = 1 →
      (_parse_author full).surname = (authorSplit full).1.head?.getD "" ∧
      (_parse_author full).first = "" ∧ (_parse_author full).middle = "") := by
  rcases hs : authorSplit full with ⟨parts, suf⟩
  rw [parse_author_eq, hs]
  rcases parts with _ | ⟨p0, _ | ⟨p1, rest⟩⟩
  · exact ⟨fun h => by simp at h, fun h => by simp at h⟩
  · refine ⟨fun h => by simp at h, fun _ => ⟨rfl, rfl, rfl⟩⟩
  · refine ⟨fun _ => ⟨rfl, ?_, rfl⟩, fun h => by simp at h⟩
    show ((p1 :: rest).getLast?).getD "" = ((p0 :: p1 :: rest).getLast?).getD ""
    rw [List.getLast?_cons_cons]

/-- Claim C4 witness: a three-token name and a one-token name parsed at their
token positions. -/
theorem C4_parse_token_positions_witness :
    (_parse_author "John Quincy Adams Smith").first = "John" ∧
    (_parse_author "John Quincy Adams Smith").surname = "Smith" ∧
    (_parse_author "John Quincy Adams Smith").middle = "Quincy Adams" ∧
    (_parse_author "Plato").surname = "Plato" := by
  have h4 := (C4_parse_token_positions "John Quincy Adams Smith").1 (by decide)
  have h1 := (C4_parse_token_positions "Plato").2 (by decide)
  refine ⟨?_, ?_, ?_, ?_⟩
  · rw [h4.1]; decide
  · rw [h4.2.1]; decide
  · rw [h4.2.2]; decide
  · rw [h1.1]; decide

/-- Claim C7: an erroring validator call, and a call returning a malformed
response (anything but a dict with a boolean or string `ok`), both make
`filename_already_formatted` return `false`, so the per-document pipeline
falls through to metadata extraction instead of skipping the document. -/
theorem C7_validator_fails_open :
    (∀ (e : Unit) (rest : RenameDecision),
      filename_already_formatted (Except.error e) = false ∧
      checkFormattedStep (Except.error e) rest = rest) ∧
    (∀ (v : JVal) (rest : RenameDecision), hasUsableOk v = false →
      filename_already_formatted (Except.ok v) = false ∧
      checkFormattedStep (Except.ok v) rest = rest) := by
  constructor
  · exact fun e rest => ⟨rfl, rfl⟩
  · intro v rest h
    have hf : filename_already_formatted (Except.ok v) = false := by
      cases v with
      | obj fields =>
        simp only [hasUsableOk] at h
        simp only [filename_already_formatted]
        cases hl : fields.lookup "ok" with
        | none => rfl
        | some w =>
          rw [hl] at h
          cases w <;> first | rfl | simp at h
      | null => rfl
      | bool b => rfl
      | str s => rfl
      | num n => rfl
      | arr elems => rfl
    exact ⟨hf, by simp [checkFormattedStep, hf]⟩

/-- Claim C7 witness: a failing call and a malformed (array) response both
leave the pipeline on its extraction path. -/
theorem C7_validator_fails_open_witness :
    filename_already_formatted (Except.error ()) = false ∧
    checkFormattedStep (Except.error ()) (RenameDecision.skipped "empty metadata")
        = RenameDecision.skipped "empty metadata" ∧
    filename_already_formatted (Except.ok (JVal.arr [])) = false := by
  refine ⟨(C7_validator_fails_open.1 () (RenameDecision.skipped "empty metadata")).1,
    (C7_validator_fails_open.1 () (RenameDecision.skipped "empty metadata")).2,
    (C7_validator_fails_open.2 (JVal.arr []) (RenameDecision.skipped "x") ?_).1⟩
  rfl

/-- Claim C9: the last token is treated as a suffix exactly when its
lower-casing is in `_SUFFIXES` = `{jr, jr., sr., ii, iii, iv}`; in particular
`"Jr"` (no period) is a suffix while `"Sr"` (no period) is not — a name
ending in `Sr` gets `Sr` as its surname. -/
theorem C9_suffix_membership :
    (∀ full : String, preSuffixTokens full ≠ [] →
      ((_SUFFIXES.contains (pyLower ((preSuffixTokens full).getLast?.getD "")) = true →
        (_parse_author full).suffix = (preSuffixTokens full).getLast?.getD "") ∧
       (_SUFFIXES.contains (pyLower ((preSuffixTokens full).getLast?.getD "")) = false →
        (_parse_author full).suffix = ""))) ∧
    (_parse_author "John Smith Jr").suffix = "Jr" ∧
    (_parse_author "John Smith Sr").suffix = "" ∧
    (_parse_author "John Smith Sr").surname = "Sr" ∧
    _SUFFIXES.contains (pyLower "Jr") = true ∧
    _SUFFIXES.contains (pyLower "Sr") = false := by
  refine ⟨?_, by decide, by decide, by decide, by decide, by decide⟩
  intro full h
  obtain ⟨lt, hlt⟩ := Option.isSome_iff_exists.mp (List.getLast?_isSome.mpr h)
  have hsuf : (_parse_author full).suffix = (authorSplit full).2 := by
    rw [parse_author_eq, componentsFrom_suffix]
  constructor
  · intro hc
    rw [hlt] at hc ⊢
    simp only [Option.getD_some] at hc ⊢
    rw [hsuf]
    simp only [authorSplit]
    rw [hlt]
    have hm : pyLower lt ∈ _SUFFIXES := by simpa using hc
    simp [hm]
  · intro hc
    rw [hlt] at hc
    simp only [Option.getD_some] at hc
    rw [hsuf]
    simp only [authorSplit]
    rw [hlt]
    have hm : pyLower lt ∉ _SUFFIXES := by simpa using hc
    simp [hm]

/-- Claim C9 witness: a concrete name whose last token is a recognized
suffix. -/
theorem C9_suffix_membership_witness :
    (_parse_author "Ann B Cole Jr").suffix = "Jr" := by
  have h := (C9_suffix_membership.1 "Ann B Cole Jr" (by decide)).1 (by decide)
  rw [h]
  decide

/-- Claim C10: `format_authors_list` preserves input order — whenever some
render survives, the result is exactly the non-empty renders of the authors,
in input order, joined with `", "` (empty renders are dropped without
affecting the rest). -/
theorem C10_format_authors_order (fmt_paper fmt_book : String) (authors : List String)
    (is_book : Bool) :
    renderedAuthors (if is_book then fmt_book else fmt_paper) authors ≠ [] →
    format_authors_list fmt_paper fmt_book authors is_book =
      commaSpaceJoinS (renderedAuthors (if is_book then fmt_book else fmt_paper) authors) := by
  intro h
  unfold format_authors_list
  cases authors with
  | nil => exact absurd rfl h
  | cons a t =>
    simp only [List.isEmpty_cons, Bool.false_eq_true, if_false]
    rw [if_neg (by simpa using h)]

/-- Claim C10 witness: one author renders empty and is dropped; the surviving
renders appear in input order. -/
theorem C10_format_authors_order_witness :
    format_authors_list "{surname}" "x" ["Jane Doe", ";", "Al Brown"] false = "Doe, Brown" := by
  have h := C10_format_authors_order "{surname}" "x" ["Jane Doe", ";", "Al Brown"] false
    (by decide)
  rw [h]
  decide

/-- Claim C1: when the candidate destination already exists, byte-identical
source and destination contents make the collision block answer `Duplicate`
(and the rename does not proceed); equal sizes with different contents make
it answer `Resolved` with a path whose filename contains the
8-hex-character short digest of the source content (provided the
digest-suffixed candidate itself is free, i.e. the collision involves just
the two files). -/
theorem C1_collision_resolution (fs : FS) (src dir name : String) (cs cd : List Byte)
    (fuel : Nat)
    (hex : fs.pathExists (pathJoin dir name) = true)
    (hsrc : fs.readFile src = some cs)
    (hdst : fs.readFile (pathJoin dir name) = some cd) :
    (cs = cd →
      resolveCollision fs src dir name fuel = some CollisionOutcome.Duplicate ∧
      renameProceeds CollisionOutcome.Duplicate = false) ∧
    (cs.length = cd.length → cs ≠ cd →
      fs.pathExists
        (firstCandidate dir (splitextL name.data).1 (shortDigest cs) (splitextL name.data).2)
          = false →
      resolveCollision fs src dir name (fuel + 1) =
        some (CollisionOutcome.Resolved
          (firstCandidate dir (splitextL name.data).1 (shortDigest cs)
            (splitextL name.data).2)) ∧
      (shortDigest cs).length = 8 ∧
      (∀ x ∈ shortDigest cs, isHexChar x = true) ∧
      (∃ pre post,
        (firstCandidate dir (splitextL name.data).1 (shortDigest cs)
          (splitextL name.data).2).data = pre ++ shortDigest cs ++ post)) := by
  constructor
  · intro he
    have hsm : _same_file fs src (pathJoin dir name) = true :=
      same_file_of_read_eq hsrc hdst he
    refine ⟨?_, rfl⟩
    simp [resolveCollision, hex, hsm]
  · intro hlen hne hfree
    have hsha : sha1_hex cs ≠ sha1_hex cd := fun h => hne (sha1_hex_inj_of_length hlen h)
    have hsm : _same_file fs src (pathJoin dir name) = false :=
      same_file_false_of_hash_ne hsrc hdst hsha
    refine ⟨?_, shortDigest_length cs, shortDigest_hex cs, ?_⟩
    · simp only [resolveCollision, hex, hsm, hsrc]
      simp [collisionLoop, hfree]
    · exact ⟨dir.data ++ '/' :: ((splitextL name.data).1 ++ " [".data),
        "]".data ++ (splitextL name.data).2,
        by simp [firstCandidate]⟩

/-- Claim C1 witness: concrete two-file directories — identical contents give
`Duplicate`, equal-size different contents give `Resolved` on the
digest-suffixed path. -/
theorem C1_collision_resolution_witness :
    resolveCollision fsFixtureDup "d/a.pdf" "d" "b.pdf" 3 = some CollisionOutcome.Duplicate ∧
    resolveCollision fsFixtureDiff "d/a.pdf" "d" "b.pdf" 3 =
      some (CollisionOutcome.Resolved
        (firstCandidate "d" (splitextL "b.pdf".data).1 (shortDigest [1])
          (splitextL "b.pdf".data).2)) := by
  constructor
  · exact ((C1_collision_resolution fsFixtureDup "d/a.pdf" "d" "b.pdf" [1] [1] 3
      (by decide) (by decide) (by decide)).1 rfl).1
  · exact ((C1_collision_resolution fsFixtureDiff "d/a.pdf" "d" "b.pdf" [1] [2] 2
      (by decide) (by decide) (by decide)).2 (by decide) (by decide) (by decide)).1

theorem alwaysExistsFS_loop_none : ∀ (fuel : Nat) (src dir : String)
    (base short ext : List Char) (dst : String) (counter : Nat),
    collisionLoop alwaysExistsFS src dir base short ext dst counter fuel = none := by
  intro fuel
  induction fuel with
  | zero => intros; rfl
  | succ n ih =>
    intro src dir base short ext dst counter
    have hsm : _same_file alwaysExistsFS src dst = false := by
      simp [_same_file, alwaysExistsFS]
    simp only [collisionLoop, alwaysExistsFS, hsm]
    simpa using ih src dir base short ext (counterCandidate dir base short ext counter)
      (counter + 1)

/-- Claim C6, counterexample: the suffix loop of `process_list` has no
iteration cap and no `Failed` outcome — against a filesystem oracle that
keeps reporting "exists" with no content match, no fuel bound ever reaches a
decision. -/
theorem C6_no_cap_cex : ¬ loopCapClaim := by
  rintro ⟨B, h⟩
  have hb := h alwaysExistsFS "s" "d" [] [] [] "p" 2
  rw [alwaysExistsFS_loop_none] at hb
  simp at hb

/-- Claim C6 (amended): the suffix loop stops as soon as it examines a free
path (`Resolved`) or a content match (`Duplicate`), and it reaches a decision
whenever some examined candidate is free or content-matching — in particular
against any stable filesystem in which some candidate is free.  The code has
no iteration cap, however, and surfaces no `Failed` decision from the loop
(see the counterexample). -/
theorem C6_loop_termination (fs : FS) (src dir : String) (base short ext : List Char)
    (dst : String) (counter fuel : Nat) :
    (fs.pathExists dst = false →
      collisionLoop fs src dir base short ext dst counter (fuel + 1) =
        some (CollisionOutcome.Resolved dst)) ∧
    (fs.pathExists dst = true → _same_file fs src dst = true →
      collisionLoop fs src dir base short ext dst counter (fuel + 1) =
        some CollisionOutcome.Duplicate) ∧
    ((∃ j, j < fuel ∧ stopsAt fs src (candSeq dir base short ext dst counter j) = true) →
      (collisionLoop fs src dir base short ext dst counter fuel).isSome = true) := by
  refine ⟨?_, ?_, ?_⟩
  · intro hfree
    simp [collisionLoop, hfree]
  · intro hex hsm
    simp [collisionLoop, hex, hsm]
  · induction fuel generalizing dst counter with
    | zero => rintro ⟨j, hj, _⟩; omega
    | succ n ih =>
      rintro ⟨j, hj, hstop⟩
      by_cases hfree : fs.pathExists dst = false
      · simp [collisionLoop, hfree]
      · have hex : fs.pathExists dst = true := by
          revert hfree; cases fs.pathExists dst <;> simp
        by_cases hsm : _same_file fs src dst = true
        · simp [collisionLoop, hex, hsm]
        · have hstep : collisionLoop fs src dir base short ext dst counter (n + 1) =
              collisionLoop fs src dir base short ext
                (counterCandidate dir base short ext counter) (counter + 1) n := by
            simp [collisionLoop, hex, hsm]
          rw [hstep]
          apply ih
          cases j with
          | zero =>
            exfalso
            simp only [candSeq, stopsAt, hex, Bool.not_true, Bool.false_or] at hstop
            exact hsm hstop
          | succ k =>
            refine ⟨k, by omega, ?_⟩
            cases k with
            | zero => simpa [candSeq] using hstop
            | succ m =>
              have harith : counter + 1 + m = counter + (m + 1) := by omega
              simpa [candSeq, harith] using hstop

/-- Claim C6 witness: a stable two-file directory — the loop's very first
candidate is free, so one unit of fuel reaches a decision. -/
theorem C6_loop_termination_witness :
    collisionLoop fsFixtureDiff "d/a.pdf" "d" "b".data (shortDigest [1]) ".pdf".data
        "d/free.pdf" 2 1 = some (CollisionOutcome.Resolved "d/free.pdf") ∧
    (collisionLoop fsFixtureDiff "d/a.pdf" "d" "b".data (shortDigest [1]) ".pdf".data
        "d/free.pdf" 2 1).isSome = true := by
  constructor
  · exact (C6_loop_termination fsFixtureDiff "d/a.pdf" "d" "b".data (shortDigest [1])
      ".pdf".data "d/free.pdf" 2 0).1 (by decide)
  · exact (C6_loop_termination fsFixtureDiff "d/a.pdf" "d" "b".data (shortDigest [1])
      ".pdf".data "d/free.pdf" 2 1).2.2 ⟨0, by decide, by decide⟩

theorem dropWhile_head?_false {p : Char → Bool} :
    ∀ {l : List Char} {c : Char}, (l.dropWhile p).head? = some c → p c = false := by
  intro l
  induction l with
  | nil => intro c h; simp at h
  | cons a t ih =>
    intro c h
    rw [List.dropWhile_cons] at h
    by_cases hp : p a = true
    · rw [if_pos hp] at h; exact ih h
    · rw [if_neg hp] at h
      simp only [List.head?_cons, Option.some.injEq] at h
      subst h
      revert hp; cases p a <;> simp

theorem getLast?_dropWhile_of_ne_nil {p : Char → Bool} {l : List Char}
    (h : l.dropWhile p ≠ []) : (l.dropWhile p).getLast? = l.getLast? := by
  obtain ⟨w, hw⟩ := List.dropWhile_suffix p (l := l)
  conv_rhs => rw [← hw]
  rw [List.getLast?_append]
  obtain ⟨c, hc⟩ := Option.isSome_iff_exists.mp (List.getLast?_isSome.mpr h)
  rw [hc]
  rfl

theorem chain'_dropWhile {R : Char → Char → Prop} {p : Char → Bool} :
    ∀ {l : List Char}, List.Chain' R l → List.Chain' R (l.dropWhile p) := by
  intro l
  induction l with
  | nil => intro h; exact h
  | cons a t ih =>
    intro h
    rw [List.dropWhile_cons]
    by_cases hp : p a = true
    · rw [if_pos hp]
      exact ih h.tail
    · rw [if_neg hp]
      exact h

theorem chain'_noTwoWs_reverse {l : List Char} (h : List.Chain' noTwoWs l) :
    List.Chain' noTwoWs l.reverse := by
  rw [List.chain'_reverse]
  exact h.imp (fun a b hab hp => hab ⟨hp.2, hp.1⟩)

theorem mem_stripWith {p : Char → Bool} {l : List Char} {c : Char}
    (h : c ∈ stripWith p l) : c ∈ l := by
  unfold stripWith at h
  rw [List.mem_reverse] at h
  have h1 : c ∈ (l.dropWhile p).reverse := List.Sublist.mem h (List.dropWhile_sublist p)
  rw [List.mem_reverse] at h1
  exact List.Sublist.mem h1 (List.dropWhile_sublist p)

theorem chain'_stripWith {p : Char → Bool} {l : List Char} (h : List.Chain' noTwoWs l) :
    List.Chain' noTwoWs (stripWith p l) := by
  unfold stripWith
  exact chain'_noTwoWs_reverse (chain'_dropWhile (chain'_noTwoWs_reverse (chain'_dropWhile h)))

theorem head?_pyStripL_not_ws {l : List Char} {c : Char}
    (h : (pyStripL l).head? = some c) : isWs c = false := by
  unfold pyStripL stripWith at h
  rw [List.head?_reverse] at h
  have hne : (l.dropWhile isWs).reverse.dropWhile isWs ≠ [] := by
    intro e; rw [e] at h; simp at h
  rw [getLast?_dropWhile_of_ne_nil hne, List.getLast?_reverse] at h
  exact dropWhile_head?_false h

theorem getLast?_pyStripL_not_ws {l : List Char} {c : Char}
    (h : (pyStripL l).getLast? = some c) : isWs c = false := by
  unfold pyStripL stripWith at h
  rw [List.getLast?_reverse] at h
  exact dropWhile_head?_false h

theorem pySplitGo_words : ∀ (l acc : List Char), (∀ c ∈ acc, isWs c = false) →
    ∀ w ∈ pySplitGo acc l, w ≠ [] ∧ ∀ c ∈ w, isWs c = false ∧ (c ∈ acc ∨ c ∈ l) := by
  intro l
  induction l with
  | nil =>
    intro acc hacc w hw
    simp only [pySplitGo] at hw
    by_cases he : acc.isEmpty = true
    · rw [if_pos he] at hw; simp at hw
    · rw [if_neg he] at hw
      simp only [List.mem_singleton] at hw
      subst hw
      refine ⟨?_, ?_⟩
      · simp only [ne_eq, List.reverse_eq_nil_iff]
        exact fun e => he (by rw [e]; rfl)
      · intro c hc
        rw [List.mem_reverse] at hc
        exact ⟨hacc c hc, Or.inl hc⟩
  | cons a t ih =>
    intro acc hacc w hw
    simp only [pySplitGo] at hw
    by_cases hws : isWs a = true
    · rw [if_pos hws] at hw
      by_cases he : acc.isEmpty = true
      · rw [if_pos he] at hw
        obtain ⟨h1, h2⟩ := ih [] (by simp) w hw
        exact ⟨h1, fun c hc => ⟨(h2 c hc).1,
          Or.inr (List.mem_cons_of_mem a (((h2 c hc).2).resolve_left (List.not_mem_nil c)))⟩⟩
      · rw [if_neg he] at hw
        rcases List.mem_cons.mp hw with hw | hw
        · subst hw
          refine ⟨?_, ?_⟩
          · simp only [ne_eq, List.reverse_eq_nil_iff]
            exact fun e => he (by rw [e]; rfl)
          · intro c hc
            rw [List.mem_reverse] at hc
            exact ⟨hacc c hc, Or.inl hc⟩
        · obtain ⟨h1, h2⟩ := ih [] (by simp) w hw
          exact ⟨h1, fun c hc => ⟨(h2 c hc).1,
            Or.inr (List.mem_cons_of_mem a (((h2 c hc).2).resolve_left (List.not_mem_nil c)))⟩⟩
    · rw [if_neg hws] at hw
      have hws' : isWs a = false := by revert hws; cases isWs a <;> simp
      obtain ⟨h1, h2⟩ := ih (a :: acc)
        (by
          intro c hc
          rcases List.mem_cons.mp hc with rfl | hc
          · exact hws'
          · exact hacc c hc) w hw
      refine ⟨h1, fun c hc => ⟨(h2 c hc).1, ?_⟩⟩
      rcases (h2 c hc).2 with hc2 | hc2
      · rcases List.mem_cons.mp hc2 with rfl | hc2
        · exact Or.inr (List.mem_cons_self c t)
        · exact Or.inl hc2
      · exact Or.inr (List.mem_cons_of_mem a hc2)

theorem pySplit_words {l : List Char} :
    ∀ w ∈ pySplit l, w ≠ [] ∧ ∀ c ∈ w, isWs c = false ∧ c ∈ l := by
  intro w hw
  obtain ⟨h1, h2⟩ := pySplitGo_words l [] (by simp) w hw
  exact ⟨h1, fun c hc =>
    ⟨(h2 c hc).1, ((h2 c hc).2).resolve_left (List.not_mem_nil c)⟩⟩

theorem spaceJoinWords_ne_nil {v : List Char} {rest : List (List Char)} (h : v ≠ []) :
    spaceJoinWords (v :: rest) ≠ [] := by
  cases rest with
  | nil => simpa [spaceJoinWords] using h
  | cons u rest' => simp [spaceJoinWords, h]

theorem mem_spaceJoinWords : ∀ (ws : List (List Char)) (c : Char),
    c ∈ spaceJoinWords ws → c = ' ' ∨ ∃ w ∈ ws, c ∈ w := by
  intro ws
  induction ws with
  | nil => intro c h; simp [spaceJoinWords] at h
  | cons w rest ih =>
    intro c h
    cases rest with
    | nil =>
      simp only [spaceJoinWords] at h
      exact Or.inr ⟨w, by simp, h⟩
    | cons v rest' =>
      simp only [spaceJoinWords] at h
      rw [List.mem_append] at h
      rcases h with h | h
      · exact Or.inr ⟨w, by simp, h⟩
      · rcases List.mem_cons.mp h with rfl | h
        · exact Or.inl rfl
        · rcases ih c h with h | ⟨u, hu, hc⟩
          · exact Or.inl h
          · exact Or.inr ⟨u, List.mem_cons_of_mem w hu, hc⟩

theorem head?_spaceJoinWords_not_ws : ∀ (ws : List (List Char)),
    (∀ w ∈ ws, w ≠ [] ∧ ∀ c ∈ w, isWs c = false) →
    ∀ c, (spaceJoinWords ws).head? = some c → isWs c = false := by
  intro ws h c hc
  cases ws with
  | nil => simp [spaceJoinWords] at hc
  | cons w rest =>
    have hw := h w (List.mem_cons_self w rest)
    cases rest with
    | nil =>
      have hh : w.head? = some c := by simpa [spaceJoinWords] using hc
      exact hw.2 c (List.mem_of_mem_head? (Option.mem_def.mpr hh))
    | cons v rest' =>
      simp only [spaceJoinWords] at hc
      cases w with
      | nil => exact absurd rfl hw.1
      | cons a t =>
        simp only [List.cons_append, List.head?_cons, Option.some.injEq] at hc
        rw [← hc]
        exact hw.2 a (List.mem_cons_self a t)

theorem getLast?_spaceJoinWords_not_ws : ∀ (ws : List (List Char)),
    (∀ w ∈ ws, w ≠ [] ∧ ∀ c ∈ w, isWs c = false) →
    ∀ c, (spaceJoinWords ws).getLast? = some c → isWs c = false := by
  intro ws
  induction ws with
  | nil => intro h c hc; simp [spaceJoinWords] at hc
  | cons w rest ih =>
    intro h c hc
    have hw := h w (List.mem_cons_self w rest)
    cases rest with
    | nil =>
      have hh : w.getLast? = some c := by simpa [spaceJoinWords] using hc
      exact hw.2 c (List.mem_of_getLast?_eq_some hh)
    | cons v rest' =>
      have hv := h v (by simp)
      have hsjne : spaceJoinWords (v :: rest') ≠ [] := spaceJoinWords_ne_nil hv.1
      obtain ⟨d, hd⟩ := Option.isSome_iff_exists.mp (List.getLast?_isSome.mpr hsjne)
      have hc' : (spaceJoinWords (v :: rest')).getLast? = some c := by
        simp only [spaceJoinWords] at hc
        rw [List.getLast?_append] at hc
        have hcons : (' ' :: spaceJoinWords (v :: rest')).getLast?
            = (spaceJoinWords (v :: rest')).getLast? := by
          rw [show (' ' :: spaceJoinWords (v :: rest'))
              = [' '] ++ spaceJoinWords (v :: rest') from rfl]
          rw [List.getLast?_append, hd]
          rfl
        rw [hcons, hd] at hc
        rw [hd]
        exact hc
      exact ih (fun u hu => h u (List.mem_cons_of_mem w hu)) c hc'

theorem chain'_of_all_not_ws : ∀ {l : List Char},
    (∀ c ∈ l, isWs c = false) → List.Chain' noTwoWs l := by
  intro l
  induction l with
  | nil => intro _; simp
  | cons a t ih =>
    intro h
    rw [List.chain'_cons']
    refine ⟨?_, ih fun c hc => h c (List.mem_cons_of_mem a hc)⟩
    intro y hy hp
    have hyt : y ∈ t := List.mem_of_mem_head? hy
    have := h y (List.mem_cons_of_mem a hyt)
    rw [this] at hp
    exact Bool.false_ne_true hp.2

theorem chain'_spaceJoinWords : ∀ (ws : List (List Char)),
    (∀ w ∈ ws, w ≠ [] ∧ ∀ c ∈ w, isWs c = false) →
    List.Chain' noTwoWs (spaceJoinWords ws) := by
  intro ws
  induction ws with
  | nil => intro _; simp [spaceJoinWords]
  | cons w rest ih =>
    intro h
    have hw := h w (List.mem_cons_self w rest)
    cases rest with
    | nil =>
      simp only [spaceJoinWords]
      exact chain'_of_all_not_ws hw.2
    | cons v rest' =>
      simp only [spaceJoinWords]
      rw [List.chain'_append]
      refine ⟨chain'_of_all_not_ws hw.2, ?_, ?_⟩
      · rw [List.chain'_cons']
        refine ⟨?_, ih (fun u hu => h u (List.mem_cons_of_mem w hu))⟩
        intro y hy hp
        have hyws : isWs y = false := head?_spaceJoinWords_not_ws (v :: rest')
          (fun u hu => h u (List.mem_cons_of_mem w hu)) y (Option.mem_def.mp hy)
        rw [hyws] at hp
        exact Bool.false_ne_true hp.2
      · intro x hx y _ hp
        have hxw : x ∈ w := List.mem_of_getLast?_eq_some (Option.mem_def.mp hx)
        have := hw.2 x hxw
        rw [this] at hp
        exact Bool.false_ne_true hp.1

theorem sanitize_props (l : List Char) :
    (∀ c ∈ pyStripL (spaceJoinWords (pySplit l)), c ∈ l ∨ c = ' ') ∧
    List.Chain' noTwoWs (pyStripL (spaceJoinWords (pySplit l))) ∧
    (∀ c, (pyStripL (spaceJoinWords (pySplit l))).head? = some c → isWs c = false) ∧
    (∀ c, (pyStripL (spaceJoinWords (pySplit l))).getLast? = some c → isWs c = false) := by
  refine ⟨?_, ?_, ?_, ?_⟩
  · intro c hc
    have hc1 : c ∈ spaceJoinWords (pySplit l) := mem_stripWith hc
    rcases mem_spaceJoinWords (pySplit l) c hc1 with h | ⟨w, hw, hcw⟩
    · exact Or.inr h
    · exact Or.inl ((pySplit_words w hw).2 c hcw).2
  · exact chain'_stripWith (chain'_spaceJoinWords (pySplit l)
      (fun w hw => ⟨(pySplit_words w hw).1, fun c hc => ((pySplit_words w hw).2 c hc).1⟩))
  · intro c hc
    exact head?_pyStripL_not_ws hc
  · intro c hc
    exact getLast?_pyStripL_not_ws hc

/-- Claim C5: for every normalized metadata record, filename template, author
template, unpublished placeholder and book flag, the filename returned by
`build_new_filename` contains no character of the reserved set
`INVALID_FILENAME_CHARS`, has no two adjacent whitespace characters (hence no
whitespace run of length two or more), and starts and ends with
non-whitespace characters. -/
theorem C5_build_filename_sanitized (output_pattern book_output_pattern unpublished
    fmt_paper fmt_book : String) (meta : DocMetadata) (is_book : Bool) :
    (∀ c ∈ (build_new_filename output_pattern book_output_pattern unpublished
        fmt_paper fmt_book meta is_book).data, INVALID_FILENAME_CHARS.contains c = false) ∧
    List.Chain' noTwoWs (build_new_filename output_pattern book_output_pattern unpublished
        fmt_paper fmt_book meta is_book).data ∧
    (∀ c, (build_new_filename output_pattern book_output_pattern unpublished
        fmt_paper fmt_book meta is_book).data.head? = some c → isWs c = false) ∧
    (∀ c, (build_new_filename output_pattern book_output_pattern unpublished
        fmt_paper fmt_book meta is_book).data.getLast? = some c → isWs c = false) := by
  have hdata : (build_new_filename output_pattern book_output_pattern unpublished
      fmt_paper fmt_book meta is_book).data =
      pyStripL (spaceJoinWords (pySplit
        ((formatPattern (if is_book then book_output_pattern else output_pattern)
          (if meta.journal = "" then unpublished else meta.journal) meta.year
          (format_authors_list fmt_paper fmt_book meta.authors is_book) meta.title).data.filter
            (fun c => !(INVALID_FILENAME_CHARS.contains c))))) := rfl
  obtain ⟨hmem, hchain, hhead, hlast⟩ := sanitize_props
    ((formatPattern (if is_book then book_output_pattern else output_pattern)
      (if meta.journal = "" then unpublished else meta.journal) meta.year
      (format_authors_list fmt_paper fmt_book meta.authors is_book) meta.title).data.filter
        (fun c => !(INVALID_FILENAME_CHARS.contains c)))
  refine ⟨?_, ?_, ?_, ?_⟩
  · intro c hc
    rw [hdata] at hc
    rcases hmem c hc with h | h
    · have := (List.mem_filter.mp h).2
      revert this
      cases INVALID_FILENAME_CHARS.contains c <;> simp
    · subst h
      decide
  · rw [hdata]; exact hchain
  · rw [hdata]; exact hhead
  · rw [hdata]; exact hlast

/-- Claim C5 witness: the spec's end-to-end example — metadata
`{authors: ["Jane Doe"], year: "2020", journal: "Acm", title: "A Study"}`
under the default paper pattern and author template builds
`"Acm - 2020 - Doe - A Study.pdf"`; its characters satisfy the sanitization
properties at concrete positions. -/
theorem C5_build_filename_sanitized_witness :
    build_new_filename DEFAULT_OUTPUT_PATTERN DEFAULT_BOOK_OUTPUT_PATTERN
        DEFAULT_UNPUBLISHED DEFAULT_AUTHOR_FMT_PAPER DEFAULT_AUTHOR_FMT_BOOK
        ⟨["Jane Doe"], "2020", "Acm", "A Study"⟩ false = "Acm - 2020 - Doe - A Study.pdf" ∧
    INVALID_FILENAME_CHARS.contains 'A' = false ∧ isWs 'A' = false ∧ isWs 'f' = false := by
  have h := C5_build_filename_sanitized DEFAULT_OUTPUT_PATTERN DEFAULT_BOOK_OUTPUT_PATTERN
    DEFAULT_UNPUBLISHED DEFAULT_AUTHOR_FMT_PAPER DEFAULT_AUTHOR_FMT_BOOK
    ⟨["Jane Doe"], "2020", "Acm", "A Study"⟩ false
  exact ⟨by decide, h.1 'A' (by decide), h.2.2.1 'A' (by decide), h.2.2.2 'f' (by decide)⟩

theorem subWsRunGo_ws_eq_space : ∀ (l : List Char) (b : Bool) (c : Char),
    c ∈ subWsRunGo b l → isWs c = true → c = ' ' := by
  intro l
  induction l with
  | nil => intro b c hc _; simp [subWsRunGo] at hc
  | cons a t ih =>
    intro b c hc hws
    simp only [subWsRunGo] at hc
    by_cases ha : isWs a = true
    · rw [if_pos ha] at hc
      cases b with
      | true => exact ih true c (by simpa using hc) hws
      | false =>
        rcases List.mem_cons.mp (by simpa using hc) with rfl | hc
        · rfl
        · exact ih true c hc hws
    · rw [if_neg ha] at hc
      rcases List.mem_cons.mp hc with rfl | hc
      · exact absurd hws ha
      · exact ih false c hc hws

theorem subWsRunGo_true_head_not_ws : ∀ (l : List Char) (c : Char),
    (subWsRunGo true l).head? = some c → isWs c = false := by
  intro l
  induction l with
  | nil => intro c hc; simp [subWsRunGo] at hc
  | cons a t ih =>
    intro c hc
    simp only [subWsRunGo] at hc
    by_cases ha : isWs a = true
    · rw [if_pos ha] at hc
      exact ih c (by simpa using hc)
    · rw [if_neg ha] at hc
      simp only [List.head?_cons, Option.some.injEq] at hc
      rw [← hc]
      revert ha; cases isWs a <;> simp

theorem subWsRunGo_chain : ∀ (l : List Char) (b : Bool),
    List.Chain' noTwoWs (subWsRunGo b l) := by
  intro l
  induction l with
  | nil => intro b; simp [subWsRunGo]
  | cons a t ih =>
    intro b
    simp only [subWsRunGo]
    by_cases ha : isWs a = true
    · rw [if_pos ha]
      cases b with
      | true => simpa using ih true
      | false =>
        simp only [if_false, Bool.false_eq_true]
        rw [List.chain'_cons']
        refine ⟨?_, ih true⟩
        intro y hy hp
        have := subWsRunGo_true_head_not_ws t y (Option.mem_def.mp hy)
        rw [this] at hp
        exact Bool.false_ne_true hp.2
    · rw [if_neg ha]
      rw [List.chain'_cons']
      refine ⟨?_, ih false⟩
      intro y _ hp
      have ha' : isWs a = false := by revert ha; cases isWs a <;> simp
      rw [ha'] at hp
      exact Bool.false_ne_true hp.1

theorem subWsRunGo_eq_self : ∀ (l : List Char) (b : Bool),
    (∀ c ∈ l, isWs c = true → c = ' ') → List.Chain' noTwoWs l →
    (b = true → ∀ c, l.head? = some c → isWs c = false) → subWsRunGo b l = l := by
  intro l
  induction l with
  | nil => intro b _ _ _; cases b <;> rfl
  | cons a t ih =>
    intro b h1 h2 h3
    simp only [subWsRunGo]
    by_cases ha : isWs a = true
    · have hb : b = false := by
        cases b with
        | false => rfl
        | true => exact absurd ha (by simp [h3 rfl a rfl])
      subst hb
      rw [if_pos ha]
      simp only [Bool.false_eq_true, if_false]
      have haeq : a = ' ' := h1 a (List.mem_cons_self a t) ha
      have hrec : subWsRunGo true t = t := by
        apply ih true
        · exact fun c hc hws => h1 c (List.mem_cons_of_mem a hc) hws
        · exact (List.chain'_cons'.mp h2).2
        · intro _ c hc
          have hR := (List.chain'_cons'.mp h2).1 c (Option.mem_def.mpr hc)
          by_contra hcontra
          have : isWs c = true := by revert hcontra; cases isWs c <;> simp
          exact hR ⟨ha, this⟩
      rw [hrec, haeq]
    · rw [if_neg ha]
      congr 1
      apply ih false
      · exact fun c hc hws => h1 c (List.mem_cons_of_mem a hc) hws
      · exact (List.chain'_cons'.mp h2).2
      · intro h; cases h

theorem dropWhile_eq_self_of_head {p : Char → Bool} {l : List Char}
    (h : ∀ c, l.head? = some c → p c = false) : l.dropWhile p = l := by
  cases l with
  | nil => rfl
  | cons a t =>
    rw [List.dropWhile_cons, if_neg]
    simp [h a rfl]

theorem stripWith_eq_self {l : List Char}
    (hh : ∀ c, l.head? = some c → isWs c = false)
    (hl : ∀ c, l.getLast? = some c → isWs c = false) : pyStripL l = l := by
  unfold pyStripL stripWith
  rw [dropWhile_eq_self_of_head hh]
  rw [dropWhile_eq_self_of_head
    (fun c hc => hl c (by rwa [List.head?_reverse] at hc))]
  exact List.reverse_reverse l

/-- Claim C8, counterexample: the full cleanup of `_render_author` is not
idempotent — comma-run collapsing is a single left-to-right pass, so
`"a,,,b"` cleans to `"a,,b"`, which cleans again to `"a,b"`.  (Empty-paren
removal is likewise single-pass: `"(())"` cleans to `"()"`, then to `""`.) -/
theorem C8_cleanup_not_idempotent_cex :
    cleanupSpacing "a,,,b" = "a,,b" ∧
    cleanupSpacing (cleanupSpacing "a,,,b") = "a,b" ∧
    cleanupSpacing (cleanupSpacing "a,,,b") ≠ cleanupSpacing "a,,,b" ∧
    cleanupSpacing "(())" = "()" ∧ cleanupSpacing (cleanupSpacing "(())") = "" := by
  refine ⟨?_, ?_, ?_, ?_, ?_⟩ <;> decide

/-- Claim C8 (amended): the whitespace-collapsing step of the cleanup
(collapse whitespace runs to one space, then trim — line 548) is idempotent
on every input string; the full cleanup is not idempotent, because the
comma-collapsing and empty-paren-removal substitutions are single-pass
(see the counterexample). -/
theorem C8_ws_normalize_idempotent (s : String) :
    wsNormalize (wsNormalize s) = wsNormalize s := by
  have hx : (wsNormalize s).data = pyStripL (subWsRun s.data) := rfl
  have h1 : ∀ c ∈ (wsNormalize s).data, isWs c = true → c = ' ' := by
    intro c hc hws
    rw [hx] at hc
    exact subWsRunGo_ws_eq_space s.data false c (mem_stripWith hc) hws
  have h2 : List.Chain' noTwoWs (wsNormalize s).data := by
    rw [hx]
    exact chain'_stripWith (subWsRunGo_chain s.data false)
  have hsub : subWsRun (wsNormalize s).data = (wsNormalize s).data :=
    subWsRunGo_eq_self (wsNormalize s).data false h1 h2 (by intro h; cases h)
  have hstrip : pyStripL (wsNormalize s).data = (wsNormalize s).data :=
    stripWith_eq_self
      (fun c hc => by rw [hx] at hc; exact head?_pyStripL_not_ws hc)
      (fun c hc => by rw [hx] at hc; exact getLast?_pyStripL_not_ws hc)
  show (⟨pyStripL (subWsRun (wsNormalize s).data)⟩ : String) = wsNormalize s
  rw [hsub, hstrip]

end PaperDF
